import Mathlib

/-!
Shallow embedding of the crypto-portfolio server (src/netlify/functions/cacheManager.js
and src/netlify/functions/server.js) and proofs about its price-caching, refresh and
portfolio-mutation behaviour.

Modelling conventions:
* Timestamps (`Date.now()`) are integers (milliseconds).
* JavaScript numbers are rationals (`ℚ`); `NaN` is not representable, so a JSON field
  whose numeric coercion is `NaN` is modelled by a dedicated constructor instead.
* The JavaScript values that can appear in a price field (a number, a string such as
  the `"N/A"` placeholder written by the add route, an object with a `usd` member, or
  `undefined`) are modelled by the inductive `JVal`, together with JS truthiness.
* The in-memory `portfolioCache` and the persisted portfolio (`getPortfolio` /
  `savePortfolio`) are lists of holdings; the initial `{}` object value of the cache
  is modelled as the empty list.
* Each upstream HTTP request is modelled by its outcome (`AxiosOutcome`); an endpoint
  that issues requests takes the sequence of outcomes as a function argument.
-/

namespace CryptoPortfolio

/-- `CACHE_DURATION = 5 * 60 * 1000` from cacheManager.js (milliseconds). -/
def CACHE_DURATION : ℤ := 5 * 60 * 1000

/-- `API_CALL_INTERVAL = 30 * 1000` from cacheManager.js (milliseconds). -/
def API_CALL_INTERVAL : ℤ := 30 * 1000

/-- A JavaScript value as it can appear in a price-related field: a number, a string,
an object carrying a `usd` member, or `undefined`. -/
inductive JVal where
  | num (q : ℚ)
  | str (s : String)
  | objUsd (v : JVal)
  | undefined
deriving DecidableEq, Repr

/-- JS truthiness of a `JVal`: `0`, the empty string and `undefined` are falsy;
every object is truthy. -/
def JVal.truthy : JVal → Bool
  | .num q => q != 0
  | .str s => s != ""
  | .objUsd _ => true
  | .undefined => false

/-- Reading the `usd` member of a `JVal` (`v.usd`): defined on objects, `undefined`
on numbers and strings (property access on a primitive yields `undefined`). -/
def JVal.usdField : JVal → JVal
  | .objUsd v => v
  | _ => .undefined

/-- The `lastPrice` object stored on a holding: `{ usd, timestamp }`. -/
structure LastPrice where
  usd : JVal
  timestamp : ℤ
deriving DecidableEq, Repr

/-- One element of the portfolio list: `{ coin, amount, name, symbol, lastPrice }`.
A missing `name`/`symbol` is modelled by the empty string (both are falsy in JS). -/
structure Holding where
  coin : String
  amount : ℚ
  name : String
  symbol : String
  lastPrice : Option LastPrice
deriving DecidableEq, Repr

/-- One element of a CoinGecko `/coins/markets` response:
`{ id, current_price, name, symbol }`.  The shape of `current_price` is kept
abstract as a `JVal` because the two source files disagree on it
(cacheManager.js reads it as a number, the background task in server.js reads
`current_price.usd`). -/
structure MarketCoin where
  id : String
  current_price : JVal
  name : String
  symbol : String
deriving DecidableEq, Repr

/-- `liveCoinData[coin.id] = coin` built with `forEach` keeps the last occurrence
of every id, so lookup finds the last matching element of the response. -/
def lookupCoin (resp : List MarketCoin) (c : String) : Option MarketCoin :=
  resp.reverse.find? (fun m => m.id == c)

/-- Outcome of one underlying `axios.get`: success with a data array, an HTTP 429
rate-limit error, or any other failure. -/
inductive AxiosOutcome where
  | ok (data : List MarketCoin)
  | http429
  | fail (msg : String)

/-- The error finally thrown out of `retryAxios`. -/
inductive AxiosErr where
  | status429
  | other (msg : String)
deriving DecidableEq, Repr

/-- What one call of `retryAxios` did: its result, the total number of `axios.get`
attempts it made, and the delays (ms) it slept between successive attempts. -/
structure RetryTrace where
  result : Except AxiosErr (List MarketCoin)
  attempts : ℕ
  delays : List ℕ
deriving Repr

/-- `retryAxios(url, config, retries = 5, delay = 1000)` from cacheManager.js:
try `axios.get`; on an HTTP 429 response with `retries > 0`, sleep `delay` and
recurse with `retries - 1` and `delay * 2`; propagate every other error (and a
429 with `retries = 0`) immediately.  `upstream k` is the outcome of the `k`-th
underlying request. -/
def retryAxios (upstream : ℕ → AxiosOutcome) : (retries : ℕ) → (delay k : ℕ) → RetryTrace
  | 0, _, k =>
    match upstream k with
    | .ok d => ⟨.ok d, 1, []⟩
    | .fail m => ⟨.error (.other m), 1, []⟩
    | .http429 => ⟨.error .status429, 1, []⟩
  | r + 1, delay, k =>
    match upstream k with
    | .ok d => ⟨.ok d, 1, []⟩
    | .fail m => ⟨.error (.other m), 1, []⟩
    | .http429 =>
      let t := retryAxios upstream r (delay * 2) (k + 1)
      ⟨t.result, t.attempts + 1, delay :: t.delays⟩

/-- The process-wide mutable state shared by both source files: the in-memory
`portfolioCache`, the persisted portfolio list (behind `getPortfolio` /
`savePortfolio`) and `lastApiCallTime`. -/
structure SysState where
  portfolioCache : List Holding
  store : List Holding
  lastApiCallTime : ℤ
deriving DecidableEq, Repr

/-- Result of one refresh-style operation: the new state, whether an upstream
price-feed request was started, and the list persisted via `savePortfolio`
(if any). -/
structure TickResult where
  state : SysState
  feedCalled : Bool
  saved : Option (List Holding)
deriving Repr

/-- The per-item update inside `fetchAndCachePrices`: when the response carries a
coin for `item.coin` with a truthy `current_price`, overwrite `lastPrice`
(with `usd := current_price` as the code does), `name` and `symbol`. -/
def applyMarket (now : ℤ) (live : List MarketCoin) (item : Holding) : Holding :=
  match lookupCoin live item.coin with
  | some coin =>
    if coin.current_price.truthy then
      { item with lastPrice := some ⟨coin.current_price, now⟩,
                  name := coin.name, symbol := coin.symbol }
    else item
  | none => item

/-- `fetchAndCachePrices` from cacheManager.js, as a state transition at time `now`:
skip when `now - lastApiCallTime < API_CALL_INTERVAL`; otherwise set
`lastApiCallTime := now`, load the portfolio; when it is empty, clear the cache and
persist `[]` without calling the feed; otherwise make one retried feed request and,
on success, save and cache the updated list (errors are caught and swallowed). -/
def fetchAndCachePrices (s : SysState) (now : ℤ) (upstream : ℕ → AxiosOutcome) :
    TickResult :=
  if now - s.lastApiCallTime < API_CALL_INTERVAL then
    ⟨s, false, none⟩
  else if s.store = [] then
    ⟨⟨[], [], now⟩, false, some []⟩
  else
    match (retryAxios upstream 5 1000 0).result with
    | .error _ => ⟨⟨s.portfolioCache, s.store, now⟩, true, none⟩
    | .ok data =>
      let updated := s.store.map (applyMarket now data)
      ⟨⟨updated, updated, now⟩, true, some updated⟩

/-- The per-item update inside `fetchCoinPrice`'s `portfolio.map`: items whose
`coin` equals the requested id get `lastPrice`, `name`, `symbol` from the first
response element; every other item is returned unchanged. -/
def updateForCoin (coinId : String) (now : ℤ) (c : MarketCoin) (item : Holding) :
    Holding :=
  if item.coin == coinId then
    { item with lastPrice := some ⟨c.current_price, now⟩,
                name := c.name, symbol := c.symbol }
  else item

/-- `fetchCoinPrice(coinId)` from cacheManager.js: one retried feed request for the
single id — with no `lastApiCallTime` gate — and, when the response data is
non-empty, map the freshly loaded portfolio, save it and replace the cache with it;
errors are caught and swallowed. -/
def fetchCoinPrice (s : SysState) (coinId : String) (now : ℤ)
    (upstream : ℕ → AxiosOutcome) : TickResult :=
  match (retryAxios upstream 5 1000 0).result with
  | .error _ => ⟨s, true, none⟩
  | .ok [] => ⟨s, true, none⟩
  | .ok (c :: _) =>
    let updated := s.store.map (updateForCoin coinId now c)
    ⟨⟨updated, updated, s.lastApiCallTime⟩, true, some updated⟩

/-- A refresh trigger: a periodic `fetchAndCachePrices` tick, or an on-demand
`fetchCoinPrice` fired after an add.  Each carries its wall-clock time and the
outcomes of the upstream requests it would make. -/
inductive Trigger where
  | tick (now : ℤ) (upstream : ℕ → AxiosOutcome)
  | onDemand (now : ℤ) (coinId : String) (upstream : ℕ → AxiosOutcome)

/-- Run a sequence of refresh triggers from a state, collecting the start times of
the upstream price-feed requests that were actually issued. -/
def runTriggers : SysState → List Trigger → SysState × List ℤ
  | s, [] => (s, [])
  | s, Trigger.tick now up :: rest =>
    let r := fetchAndCachePrices s now up
    ((runTriggers r.state rest).1,
      (if r.feedCalled then [now] else []) ++ (runTriggers r.state rest).2)
  | s, Trigger.onDemand now cid up :: rest =>
    let r := fetchCoinPrice s cid now up
    ((runTriggers r.state rest).1,
      (if r.feedCalled then [now] else []) ++ (runTriggers r.state rest).2)

/-- A displayed price/value as it appears in a JSON response: the string `"N/A"`,
the string `"NaN"` (printing of a JS `NaN`), or a formatted number. -/
inductive DispVal where
  | na
  | nan
  | n (q : ℚ)
deriving DecidableEq, Repr

/-- `x.toFixed(d)` on a (rational) JS number: round `x` to `d` decimal digits;
the ECMAScript algorithm picks the integer `n` with `n / 10^d` closest to `x`,
and the larger `n` on a tie, i.e. `n = ⌊x * 10^d + 1/2⌋`. -/
def toFixed (d : ℕ) (q : ℚ) : ℚ :=
  ((Rat.floor (q * 10 ^ d + 1 / 2) : ℤ) : ℚ) / 10 ^ d

/-- `amount * usd` followed by `.toFixed(2)`: a number when `usd` is one,
otherwise `NaN` (strings that do not coerce to a number, objects, `undefined`). -/
def jsMulFixed (a : ℚ) (v : JVal) : DispVal :=
  match v with
  | .num q => .n (toFixed 2 (a * q))
  | _ => .nan

/-- One element of the GET `/api/portfolio` response array. -/
structure Row where
  name : String
  symbol : String
  amount : ℚ
  price : DispVal
  value : DispVal
  cached : Bool
  coin : String
deriving DecidableEq, Repr

/-- The loop body of GET `/api/portfolio` for one holding.  `cachedPrice` is the JS
value `item.lastPrice && item.lastPrice.usd`; when it is truthy the code calls
`cachedPrice.toFixed(...)`, which is a `TypeError` unless `cachedPrice` is a
number — that exception is modelled as `Except.error`. -/
def renderItem (item : Holding) : Except String Row :=
  let cachedPrice : JVal :=
    match item.lastPrice with
    | none => .undefined
    | some lp => lp.usd
  if cachedPrice.truthy then
    match cachedPrice with
    | .num q =>
      .ok { name := item.name, symbol := item.symbol.toUpper, amount := item.amount,
            price := .n (if q ≥ 1 then toFixed 2 q
                         else if q ≥ 1 / 10000 then toFixed 4 q else toFixed 8 q),
            value := .n (toFixed 2 (item.amount * q)),
            cached := true, coin := item.coin }
    | _ => .error "TypeError: cachedPrice.toFixed is not a function"
  else
    .ok { name := if item.name != "" then item.name else item.coin,
          symbol := if item.symbol != "" then item.symbol else "N/A",
          amount := item.amount, price := .na, value := .na,
          cached := false, coin := item.coin }

/-- The GET `/api/portfolio` response loop over the whole cache, stopping at the
first thrown `TypeError` (the route's `try` wraps the entire loop). -/
def renderAll : List Holding → Except String (List Row)
  | [] => .ok []
  | h :: t =>
    match renderItem h with
    | .error e => .error e
    | .ok r =>
      match renderAll t with
      | .error e => .error e
      | .ok rs => .ok (r :: rs)

/-- Contribution of one row to `totalValue` (`parseFloat` of the formatted value;
unavailable rows contribute nothing). -/
def rowValueNum (r : Row) : ℚ :=
  match r.value with
  | .n q => q
  | _ => 0

/-- The synchronous part of GET `/api/portfolio`: render every cached holding and
compute `totalValue.toFixed(2)`; a thrown `TypeError` reaches the route's `catch`
and becomes an HTTP 500 (`Except.error`). -/
def getPortfolioRoute (cache : List Holding) : Except String (List Row × ℚ) :=
  match renderAll cache with
  | .error e => .error e
  | .ok rows => .ok (rows, toFixed 2 (rows.foldl (fun acc r => acc + rowValueNum r) 0))

/-- `needsUpdate` from the background task of GET `/api/portfolio`:
`!item.lastPrice || !item.lastPrice.usd || (Date.now() - item.lastPrice.timestamp >= 300000)`. -/
def needsUpdate (now : ℤ) (item : Holding) : Bool :=
  match item.lastPrice with
  | none => true
  | some lp => !lp.usd.truthy || decide (CACHE_DURATION ≤ now - lp.timestamp)

/-- `backgroundLiveCoinData` of the background task: empty when the freshly loaded
portfolio has no coins (no request is made) or when the single unretried request
fails (the error is caught); otherwise the response data. -/
def bgLiveData (store : List Holding) (resp : Except Unit (List MarketCoin)) :
    List MarketCoin :=
  if store = [] then []
  else
    match resp with
    | .ok d => d
    | .error _ => []

/-- The background task's per-item step: items that need an update and whose feed
entry is truthy with a numeric `current_price.usd` member get new `lastPrice`,
`name`, `symbol`; every other item is pushed unchanged. -/
def bgUpdateItem (now : ℤ) (live : List MarketCoin) (item : Holding) : Holding :=
  if needsUpdate now item then
    match lookupCoin live item.coin with
    | some coin =>
      if coin.current_price.truthy then
        match coin.current_price.usdField with
        | .num q =>
          { item with lastPrice := some ⟨.num q, now⟩,
                      name := coin.name, symbol := coin.symbol }
        | _ => item
      else item
    | none => item
  else item

/-- Result of a full GET `/api/portfolio` request including its detached background
task: the HTTP response, the state afterwards, the list persisted by the background
task, and the pacing delays (ms) it slept. -/
structure ReadResult where
  response : Except String (List Row × ℚ)
  state : SysState
  saved : Option (List Holding)
  delays : List ℕ
deriving Repr

/-- GET `/api/portfolio` from server.js with its background task: answer from the
in-memory cache (a thrown error yields a 500 and the background task never
starts); afterwards re-read the store, make at most one unretried feed request,
sleep 3000 ms before every holding that needs an update, update those holdings
whose feed entry qualifies, and persist the full list.  The in-memory cache is
not written on this path. -/
def getPortfolioFull (s : SysState) (now : ℤ) (resp : Except Unit (List MarketCoin)) :
    ReadResult :=
  match getPortfolioRoute s.portfolioCache with
  | .error e => ⟨.error e, s, none, []⟩
  | .ok out =>
    let live := bgLiveData s.store resp
    let upd := s.store.map (bgUpdateItem now live)
    ⟨.ok out, { s with store := upd }, some upd,
      (s.store.filter (needsUpdate now)).map (fun _ => 3000)⟩

/-- GET `/api/coin/:coinId/price` from server.js: find the first cached holding with
that coin id; answer `{ price, value }` when it has a `lastPrice` whose `usd` is not
the string `"N/A"`; otherwise a 404 "Price not available yet." (`none`).  There is
no freshness check. -/
def getCoinPriceRoute (cache : List Holding) (coinId : String) :
    Option (JVal × DispVal) :=
  match cache.find? (fun item => item.coin == coinId) with
  | none => none
  | some item =>
    match item.lastPrice with
    | none => none
    | some lp =>
      if lp.usd = JVal.str "N/A" then none
      else some (lp.usd, jsMulFixed item.amount lp.usd)

/-- Result of POST `/api/portfolio/add`: the new state and whether the request was
accepted (`false` is the 400 validation rejection). -/
structure AddResult where
  state : SysState
  accepted : Bool
deriving DecidableEq, Repr

/-- Mutating `portfolio.find(item => item.coin === coinId).amount += amount`:
only the first matching element changes. -/
def addFirstMatch : List Holding → String → ℚ → List Holding
  | [], _, _ => []
  | h :: t, c, a =>
    if h.coin == c then { h with amount := h.amount + a } :: t
    else h :: addFirstMatch t c a

/-- The entry pushed for a brand-new coin:
`{ coin, amount, name: coinId, symbol: "?", lastPrice: { usd: "N/A", timestamp: 0 } }`. -/
def newHolding (coinId : String) (a : ℚ) : Holding :=
  ⟨coinId, a, coinId, "?", some ⟨.str "N/A", 0⟩⟩

/-- POST `/api/portfolio/add` from server.js (without the detached
`fetchCoinPrice`, which is a separate trigger): reject when `coinId` is falsy,
the amount is not numeric (`isNaN`) or not positive; otherwise merge into the
first existing entry or append a new one, then save and cache the same list.
`amount = none` models a request value whose numeric coercion is `NaN`. -/
def addCoinRoute (s : SysState) (coinId : String) (amount : Option ℚ) : AddResult :=
  match amount with
  | none => ⟨s, false⟩
  | some a =>
    if coinId = "" ∨ a ≤ 0 then ⟨s, false⟩
    else
      let pf :=
        if s.store.any (fun item => item.coin == coinId) then
          addFirstMatch s.store coinId a
        else s.store ++ [newHolding coinId a]
      ⟨⟨pf, pf, s.lastApiCallTime⟩, true⟩

/-- Result of DELETE `/api/portfolio/remove/:coinId`: the new state and whether the
coin was found (`false` is the 404 outcome). -/
structure RemoveResult where
  state : SysState
  found : Bool
deriving DecidableEq, Repr

/-- DELETE `/api/portfolio/remove/:coinId` from server.js: filter out every entry
with that coin id; when the list shrank, save and cache the filtered list,
otherwise answer 404 and touch nothing. -/
def removeCoinRoute (s : SysState) (coinId : String) : RemoveResult :=
  let filtered := s.store.filter (fun item => item.coin != coinId)
  if filtered.length < s.store.length then
    ⟨⟨filtered, filtered, s.lastApiCallTime⟩, true⟩
  else ⟨s, false⟩

/-- The coin ids of a portfolio list, in order. -/
def coinsOf (l : List Holding) : List String :=
  l.map Holding.coin

/-! ## Theorems -/

lemma retryAxios_fail (up : ℕ → AxiosOutcome) (retries delay k : ℕ) (m : String)
    (h : up k = .fail m) :
    retryAxios up retries delay k = ⟨.error (.other m), 1, []⟩ := by
  cases retries <;> (unfold retryAxios; rw [h])

lemma retryAxios_attempts_le (up : ℕ → AxiosOutcome) :
    ∀ retries delay k, (retryAxios up retries delay k).attempts ≤ retries + 1 := by
  intro retries
  induction retries with
  | zero =>
    intro delay k
    unfold retryAxios
    cases up k <;> simp
  | succ r ih =>
    intro delay k
    unfold retryAxios
    cases up k <;> simp
    exact ih (delay * 2) (k + 1)

/-- Claim C3 (counterexample): when every upstream request is rate-limited, the code
makes 6 attempts in total (the initial call plus its 5 retries), not at most 5. -/
theorem c3_counterexample :
    (retryAxios (fun _ => AxiosOutcome.http429) 5 1000 0).attempts = 6 ∧
    ¬(retryAxios (fun _ => AxiosOutcome.http429) 5 1000 0).attempts ≤ 5 := by
  constructor
  · rfl
  · decide

/-- Claim C3 (amended): when every upstream request is rate-limited, the batched
fetch makes exactly 6 attempts (one initial call plus 5 retries), sleeping
1, 2, 4, 8, 16 seconds — each delay double the previous — between successive
attempts, and then surfaces the rate-limit failure; a non-429 error is propagated
immediately with a single attempt and no delay; in general at most `retries + 1`
attempts are made. -/
theorem c3_retry_backoff (up : ℕ → AxiosOutcome) (k : ℕ) (m : String) :
    ((retryAxios (fun _ => AxiosOutcome.http429) 5 1000 0).result =
        .error .status429 ∧
      (retryAxios (fun _ => AxiosOutcome.http429) 5 1000 0).attempts = 6 ∧
      (retryAxios (fun _ => AxiosOutcome.http429) 5 1000 0).delays =
        [1000, 2000, 4000, 8000, 16000]) ∧
    (up k = .fail m → retryAxios up 5 1000 k = ⟨.error (.other m), 1, []⟩) ∧
    (∀ retries delay, (retryAxios up retries delay k).attempts ≤ retries + 1) :=
  ⟨⟨rfl, rfl, rfl⟩, retryAxios_fail up 5 1000 k m,
    fun retries delay => retryAxios_attempts_le up retries delay k⟩

/-- Witness for c3_retry_backoff: a concrete upstream failing with a non-429 error
on its first request is propagated after exactly one attempt. -/
theorem c3_retry_backoff_witness :
    ((fun _ : ℕ => AxiosOutcome.fail "boom") 0 = AxiosOutcome.fail "boom") ∧
    retryAxios (fun _ => AxiosOutcome.fail "boom") 5 1000 0 =
      ⟨.error (.other "boom"), 1, []⟩ :=
  ⟨rfl, (c3_retry_backoff (fun _ => AxiosOutcome.fail "boom") 0 "boom").2.1 rfl⟩

/-- Claim C9 (confirmed): a periodic tick that passes the interval gate and loads an
empty holdings list clears the in-memory cache, persists an empty holdings list, and
makes no price-feed call in that cycle. -/
theorem c9_empty_tick (s : SysState) (now : ℤ) (up : ℕ → AxiosOutcome)
    (hgate : API_CALL_INTERVAL ≤ now - s.lastApiCallTime) (hempty : s.store = []) :
    fetchAndCachePrices s now up = ⟨⟨[], [], now⟩, false, some []⟩ := by
  unfold fetchAndCachePrices
  rw [if_neg (not_lt.mpr hgate), if_pos hempty]

/-- Witness for c9_empty_tick at a concrete state and time. -/
theorem c9_empty_tick_witness :
    (API_CALL_INTERVAL ≤ (100000 : ℤ) - (⟨[], [], 0⟩ : SysState).lastApiCallTime ∧
      (⟨[], [], 0⟩ : SysState).store = []) ∧
    fetchAndCachePrices ⟨[], [], 0⟩ 100000 (fun _ => AxiosOutcome.http429) =
      ⟨⟨[], [], 100000⟩, false, some []⟩ :=
  ⟨⟨by decide, rfl⟩, c9_empty_tick _ _ _ (by decide) rfl⟩

/-- Claim C2 (code bug): with the cache holding exactly the just-added entry whose
lastPrice is the placeholder usd = "N/A", timestamp = 0, the synchronous read path
reaches `cachedPrice.toFixed` on the truthy string "N/A", throws a TypeError and
answers HTTP 500 — instead of succeeding with price and value "N/A" and
cached = false.  A holding with no lastPrice at all is rendered exactly as the
claim describes, so only the placeholder path diverges. -/
theorem c2_read_placeholder_crash :
    getPortfolioRoute [⟨"x", 2, "x", "?", some ⟨.str "N/A", 0⟩⟩] =
      .error "TypeError: cachedPrice.toFixed is not a function" ∧
    getPortfolioRoute [⟨"y", 3, "", "", none⟩] =
      .ok ([⟨"y", "N/A", 3, .na, .na, false, "y"⟩], 0) := by
  constructor
  · rfl
  · with_unfolding_all rfl

/-- Claim C4 (code bug): at a state whose store holds one holding needing a refresh,
the post-read background task sleeps 3000 ms for it, updates its price, timestamp,
name and symbol from the batch feed result and persists the full updated list — but
the in-memory cache keeps its previous value instead of being replaced wholesale
with that list (the code never writes `portfolioCache` on this path, even though it
logs that the cache was updated). -/
theorem c4_background_cache_not_replaced :
    getPortfolioFull ⟨[], [⟨"x", 2, "x", "?", none⟩], 0⟩ 1000000
        (.ok [⟨"x", .objUsd (.num 7), "X", "x"⟩]) =
      ⟨.ok ([], 0), ⟨[], [⟨"x", 2, "X", "x", some ⟨.num 7, 1000000⟩⟩], 0⟩,
        some [⟨"x", 2, "X", "x", some ⟨.num 7, 1000000⟩⟩], [3000]⟩ ∧
    ([] : List Holding) ≠ [⟨"x", 2, "X", "x", some ⟨.num 7, 1000000⟩⟩] := by
  constructor
  · with_unfolding_all rfl
  · simp

lemma fetchAndCachePrices_skip (s : SysState) (now : ℤ) (up : ℕ → AxiosOutcome)
    (h : now - s.lastApiCallTime < API_CALL_INTERVAL) :
    fetchAndCachePrices s now up = ⟨s, false, none⟩ := by
  unfold fetchAndCachePrices
  rw [if_pos h]

lemma fetchCoinPrice_feedCalled (s : SysState) (cid : String) (now : ℤ)
    (up : ℕ → AxiosOutcome) : (fetchCoinPrice s cid now up).feedCalled = true := by
  unfold fetchCoinPrice
  cases (retryAxios up 5 1000 0).result with
  | error e => rfl
  | ok d => cases d <;> rfl

lemma runTriggers_tick_spacing (evs : List Trigger) :
    ∀ (s : SysState) (prev : ℤ), prev ≤ s.lastApiCallTime →
      (∀ tr ∈ evs, ∃ n u, tr = Trigger.tick n u) →
      List.Chain' (fun a b => API_CALL_INTERVAL ≤ b - a)
        (prev :: (runTriggers s evs).2) := by
  induction evs with
  | nil =>
    intro s prev _ _
    simp [runTriggers]
  | cons tr rest ih =>
    intro s prev hprev hticks
    obtain ⟨n, u, rfl⟩ := hticks tr (List.mem_cons_self tr rest)
    have hrest : ∀ t ∈ rest, ∃ n u, t = Trigger.tick n u :=
      fun t ht => hticks t (List.mem_cons_of_mem _ ht)
    have hI : (0 : ℤ) ≤ API_CALL_INTERVAL := by norm_num [API_CALL_INTERVAL]
    simp only [runTriggers]
    rcases lt_or_le (n - s.lastApiCallTime) API_CALL_INTERVAL with hgate | hgate
    · rw [fetchAndCachePrices_skip s n u hgate]
      simpa using ih s prev hprev hrest
    · have hnot := not_lt.mpr hgate
      have hsn : s.lastApiCallTime ≤ n := by linarith
      by_cases hemp : s.store = []
      · have hr : fetchAndCachePrices s n u = ⟨⟨[], [], n⟩, false, some []⟩ := by
          unfold fetchAndCachePrices
          rw [if_neg hnot, if_pos hemp]
        rw [hr]
        simpa using ih ⟨[], [], n⟩ prev (show prev ≤ n by linarith) hrest
      · cases hres : (retryAxios u 5 1000 0).result with
        | error e =>
          have hr : fetchAndCachePrices s n u =
              ⟨⟨s.portfolioCache, s.store, n⟩, true, none⟩ := by
            unfold fetchAndCachePrices
            rw [if_neg hnot, if_neg hemp, hres]
          rw [hr]
          simp only [List.cons_append, List.nil_append, if_pos, List.singleton_append]
          rw [List.chain'_cons]
          exact ⟨by linarith,
            ih ⟨s.portfolioCache, s.store, n⟩ n le_rfl hrest⟩
        | ok data =>
          have hr : fetchAndCachePrices s n u =
              ⟨⟨s.store.map (applyMarket n data), s.store.map (applyMarket n data), n⟩,
                true, some (s.store.map (applyMarket n data))⟩ := by
            unfold fetchAndCachePrices
            rw [if_neg hnot, if_neg hemp, hres]
          rw [hr]
          simp only [List.cons_append, List.nil_append, if_pos, List.singleton_append]
          rw [List.chain'_cons]
          exact ⟨by linarith,
            ih ⟨s.store.map (applyMarket n data), s.store.map (applyMarket n data), n⟩
              n le_rfl hrest⟩

/-- Claim C1 (amended): the minimum-interval invariant holds for the periodic tick
path only — across any sequence of periodic ticks, no two feed calls start less
than API_CALL_INTERVAL apart, and a tick arriving inside the window is a skipped
no-op, never queued; the on-demand single-coin fetch, by contrast, always starts
its feed call, consulting no interval gate. -/
theorem c1_tick_interval (s : SysState) (evs : List Trigger)
    (hticks : ∀ tr ∈ evs, ∃ n u, tr = Trigger.tick n u) :
    List.Chain' (fun a b => API_CALL_INTERVAL ≤ b - a) (runTriggers s evs).2 ∧
    (∀ now up, now - s.lastApiCallTime < API_CALL_INTERVAL →
      fetchAndCachePrices s now up = ⟨s, false, none⟩) ∧
    (∀ cid now up, (fetchCoinPrice s cid now up).feedCalled = true) := by
  refine ⟨?_, fun now up h => fetchAndCachePrices_skip s now up h,
    fun cid now up => fetchCoinPrice_feedCalled s cid now up⟩
  have h := runTriggers_tick_spacing evs s s.lastApiCallTime le_rfl hticks
  exact h.tail

/-- Witness for c1_tick_interval on a concrete one-tick trace. -/
theorem c1_tick_interval_witness :
    (∀ tr ∈ [Trigger.tick 100000 (fun _ => AxiosOutcome.http429)],
      ∃ n u, tr = Trigger.tick n u) ∧
    List.Chain' (fun a b => API_CALL_INTERVAL ≤ b - a)
      (runTriggers ⟨[], [], 0⟩ [Trigger.tick 100000 (fun _ => AxiosOutcome.http429)]).2 := by
  have hh : ∀ tr ∈ [Trigger.tick 100000 (fun _ => AxiosOutcome.http429)],
      ∃ n u, tr = Trigger.tick n u := by
    intro tr htr
    rw [List.mem_singleton] at htr
    exact ⟨_, _, htr⟩
  exact ⟨hh, (c1_tick_interval ⟨[], [], 0⟩ _ hh).1⟩

/-- Claim C1 (counterexample): a periodic tick at t = 100000 followed by an
on-demand single-coin fetch (the post-add path) at t = 101000 starts two price-feed
calls only 1000 ms < API_CALL_INTERVAL apart: the on-demand fetch is not gated. -/
theorem c1_counterexample :
    (runTriggers ⟨[], [⟨"bitcoin", 2, "bitcoin", "?", none⟩], 0⟩
        [Trigger.tick 100000
           (fun _ => AxiosOutcome.ok [⟨"bitcoin", .num 50000, "Bitcoin", "btc"⟩]),
         Trigger.onDemand 101000 "bitcoin"
           (fun _ => AxiosOutcome.ok [⟨"bitcoin", .num 50000, "Bitcoin", "btc"⟩])]).2 =
      [100000, 101000] ∧
    ¬ API_CALL_INTERVAL ≤ (101000 : ℤ) - 100000 := by
  constructor
  · with_unfolding_all rfl
  · decide

/-- Claim C7 (counterexample): the price route returns a price from an entry
observed at timestamp 0 even when queried at now = 10^9 ms, far beyond
CACHE_DURATION — the code never checks the entry's age, so prices are returned
without any fresh cache entry existing. -/
theorem c7_counterexample :
    getCoinPriceRoute [⟨"btc", 2, "Bitcoin", "btc", some ⟨.num 5, 0⟩⟩] "btc" =
      some (.num 5, .n 10) ∧
    ¬ ((1000000000 : ℤ) - 0 < CACHE_DURATION) := by
  constructor
  · with_unfolding_all rfl
  · decide

/-- Claim C7 (amended): GET /api/coin/:coinId/price returns price and value exactly
when the first cached entry for that id carries a lastPrice whose usd is not the
"N/A" placeholder — regardless of the entry's age, which is never checked — with
value = (amount * usd).toFixed(2) when usd is a number; otherwise (no entry, no
lastPrice, or the placeholder) it answers "Price not available yet." -/
theorem c7_price_route (cache : List Holding) (coinId : String) :
    (∀ item, cache.find? (fun i => i.coin == coinId) = some item →
      ((∀ lp, item.lastPrice = some lp → lp.usd ≠ .str "N/A" →
          getCoinPriceRoute cache coinId =
            some (lp.usd, jsMulFixed item.amount lp.usd)) ∧
        (∀ lp q, item.lastPrice = some lp → lp.usd = .num q →
          getCoinPriceRoute cache coinId =
            some (.num q, .n (toFixed 2 (item.amount * q)))) ∧
        (item.lastPrice = none → getCoinPriceRoute cache coinId = none) ∧
        (∀ lp, item.lastPrice = some lp → lp.usd = .str "N/A" →
          getCoinPriceRoute cache coinId = none))) ∧
    (cache.find? (fun i => i.coin == coinId) = none →
      getCoinPriceRoute cache coinId = none) := by
  constructor
  · intro item hfind
    refine ⟨?_, ?_, ?_, ?_⟩
    · intro lp hlp hne
      unfold getCoinPriceRoute
      rw [hfind]
      dsimp only
      rw [hlp]
      dsimp only
      rw [if_neg hne]
    · intro lp q hlp husd
      unfold getCoinPriceRoute
      rw [hfind]
      dsimp only
      rw [hlp]
      dsimp only
      rw [husd, if_neg (by intro h; cases h)]
      rfl
    · intro hnone
      unfold getCoinPriceRoute
      rw [hfind]
      dsimp only
      rw [hnone]
    · intro lp hlp heq
      unfold getCoinPriceRoute
      rw [hfind]
      dsimp only
      rw [hlp]
      dsimp only
      rw [if_pos heq]
  · intro hfind
    unfold getCoinPriceRoute
    rw [hfind]

/-- Witness for c7_price_route at a concrete cache with a numeric price. -/
theorem c7_price_route_witness :
    (([⟨"eth", 3, "Ethereum", "eth", some ⟨.num 4, 0⟩⟩] : List Holding).find?
        (fun i => i.coin == "eth") =
      some ⟨"eth", 3, "Ethereum", "eth", some ⟨.num 4, 0⟩⟩) ∧
    getCoinPriceRoute [⟨"eth", 3, "Ethereum", "eth", some ⟨.num 4, 0⟩⟩] "eth" =
      some (.num 4, .n (toFixed 2 (3 * 4))) :=
  ⟨rfl, ((c7_price_route [⟨"eth", 3, "Ethereum", "eth", some ⟨.num 4, 0⟩⟩] "eth").1
      ⟨"eth", 3, "Ethereum", "eth", some ⟨.num 4, 0⟩⟩ rfl).2.1 ⟨.num 4, 0⟩ 4 rfl rfl⟩

lemma addFirstMatch_split (pre post : List Holding) (item : Holding)
    (c : String) (a : ℚ) (hpre : ∀ x ∈ pre, x.coin ≠ c) (hit : item.coin = c) :
    addFirstMatch (pre ++ item :: post) c a =
      pre ++ { item with amount := item.amount + a } :: post := by
  induction pre with
  | nil =>
    simp only [List.nil_append]
    unfold addFirstMatch
    rw [if_pos (by simp [hit])]
  | cons x t ih =>
    have hx : x.coin ≠ c := hpre x (List.mem_cons_self x t)
    simp only [List.cons_append]
    unfold addFirstMatch
    rw [if_neg (by simp [hx]), ih (fun y hy => hpre y (List.mem_cons_of_mem _ hy))]

/-- Claim C5 (confirmed): POST /api/portfolio/add rejects a missing coinId or a
non-positive or non-numeric amount without touching the stored list; for a new coin
it appends the entry with the given amount and the "N/A" price placeholder; for an
existing coin it adds the amount into the first matching entry; adding x:2 then x:3
to an empty portfolio leaves a single merged entry with amount 5. -/
theorem c5_add_route (s : SysState) (coinId : String) (a : ℚ) :
    (addCoinRoute s coinId none = ⟨s, false⟩) ∧
    (coinId = "" → addCoinRoute s coinId (some a) = ⟨s, false⟩) ∧
    (a ≤ 0 → addCoinRoute s coinId (some a) = ⟨s, false⟩) ∧
    (coinId ≠ "" → 0 < a → (∀ item ∈ s.store, item.coin ≠ coinId) →
      addCoinRoute s coinId (some a) =
        ⟨⟨s.store ++ [newHolding coinId a], s.store ++ [newHolding coinId a],
            s.lastApiCallTime⟩, true⟩) ∧
    (∀ pre item post, coinId ≠ "" → 0 < a → s.store = pre ++ item :: post →
      item.coin = coinId → (∀ x ∈ pre, x.coin ≠ coinId) →
      addCoinRoute s coinId (some a) =
        ⟨⟨pre ++ { item with amount := item.amount + a } :: post,
            pre ++ { item with amount := item.amount + a } :: post,
            s.lastApiCallTime⟩, true⟩) ∧
    (addCoinRoute (addCoinRoute ⟨[], [], 0⟩ "x" (some 2)).state "x"
        (some 3)).state.store =
      [⟨"x", 5, "x", "?", some ⟨.str "N/A", 0⟩⟩] := by
  refine ⟨rfl, ?_, ?_, ?_, ?_, ?_⟩
  · intro h
    unfold addCoinRoute
    dsimp only
    rw [if_pos (Or.inl h)]
  · intro h
    unfold addCoinRoute
    dsimp only
    rw [if_pos (Or.inr h)]
  · intro h1 h2 hnone
    unfold addCoinRoute
    dsimp only
    rw [if_neg (by push_neg; exact ⟨h1, h2⟩)]
    rw [if_neg (by
      simp only [List.any_eq_true, beq_iff_eq, not_exists]
      intro x
      exact fun hx => hnone x hx.1 hx.2)]
  · intro pre item post h1 h2 hsplit hcoin hpre
    unfold addCoinRoute
    dsimp only
    rw [if_neg (by push_neg; exact ⟨h1, h2⟩)]
    rw [if_pos (List.any_eq_true.mpr
      ⟨item, by rw [hsplit]; exact List.mem_append_right _ (List.mem_cons_self item post),
        by simp [hcoin]⟩)]
    rw [hsplit, addFirstMatch_split pre post item coinId a hpre hcoin]
  · with_unfolding_all rfl

/-- Witness for c5_add_route: adding a new coin to an empty portfolio appends it. -/
theorem c5_add_route_witness :
    ("x" ≠ "" ∧ (0 : ℚ) < 2 ∧ (∀ item ∈ ([] : List Holding), item.coin ≠ "x")) ∧
    addCoinRoute ⟨[], [], 0⟩ "x" (some 2) =
      ⟨⟨[newHolding "x" 2], [newHolding "x" 2], 0⟩, true⟩ := by
  have h1 : "x" ≠ "" := by decide
  have h2 : (0 : ℚ) < 2 := by norm_num
  have h3 : ∀ item ∈ ([] : List Holding), item.coin ≠ "x" := by simp
  exact ⟨⟨h1, h2, h3⟩, (c5_add_route ⟨[], [], 0⟩ "x" 2).2.2.2.1 h1 h2 h3⟩

lemma filter_ne_add_countP (l : List Holding) (c : String) :
    (l.filter (fun item => item.coin != c)).length +
      l.countP (fun item => item.coin == c) = l.length := by
  induction l with
  | nil => simp
  | cons x t ih =>
    by_cases hx : x.coin = c
    · simp only [List.filter_cons, List.countP_cons, hx]
      simp only [bne_self_eq_false, Bool.false_eq_true, if_false, beq_self_eq_true,
        if_true, List.length_cons]
      omega
    · simp only [List.filter_cons, List.countP_cons]
      rw [if_pos (by simp [hx]), if_neg (by simp [hx])]
      simp only [List.length_cons]
      omega

/-- Claim C6 (confirmed): DELETE /api/portfolio/remove/:coinId answers 404 and
leaves the stored list and the cache untouched when the id is absent; when the id
occurs exactly once it shrinks the stored list by exactly one entry and sets the
in-memory cache to that same shrunk list. -/
theorem c6_remove_route (s : SysState) (coinId : String) :
    ((∀ item ∈ s.store, item.coin ≠ coinId) →
      removeCoinRoute s coinId = ⟨s, false⟩) ∧
    (s.store.countP (fun item => item.coin == coinId) = 1 →
      (removeCoinRoute s coinId).found = true ∧
      (removeCoinRoute s coinId).state.store.length + 1 = s.store.length ∧
      (removeCoinRoute s coinId).state.portfolioCache =
        (removeCoinRoute s coinId).state.store ∧
      (removeCoinRoute s coinId).state.lastApiCallTime = s.lastApiCallTime) := by
  constructor
  · intro hnone
    have hfilter : s.store.filter (fun item => item.coin != coinId) = s.store :=
      List.filter_eq_self.mpr (fun x hx => by simp [hnone x hx])
    unfold removeCoinRoute
    dsimp only
    rw [hfilter, if_neg (lt_irrefl _)]
  · intro hcount
    have hlen := filter_ne_add_countP s.store coinId
    rw [hcount] at hlen
    have hlt : (s.store.filter (fun item => item.coin != coinId)).length <
        s.store.length := by omega
    unfold removeCoinRoute
    dsimp only
    rw [if_pos hlt]
    exact ⟨rfl, by simpa using hlen, rfl, rfl⟩

/-- Witness for c6_remove_route: removing the unique "x" entry shrinks a one-entry
store to the empty list and mirrors it into the cache. -/
theorem c6_remove_route_witness :
    (([⟨"x", 2, "x", "?", none⟩] : List Holding).countP
        (fun item => item.coin == "x") = 1) ∧
    ((removeCoinRoute ⟨[⟨"x", 2, "x", "?", none⟩], [⟨"x", 2, "x", "?", none⟩], 0⟩
        "x").found = true ∧
      (removeCoinRoute ⟨[⟨"x", 2, "x", "?", none⟩], [⟨"x", 2, "x", "?", none⟩], 0⟩
        "x").state.store.length + 1 =
        ([⟨"x", 2, "x", "?", none⟩] : List Holding).length ∧
      (removeCoinRoute ⟨[⟨"x", 2, "x", "?", none⟩], [⟨"x", 2, "x", "?", none⟩], 0⟩
        "x").state.portfolioCache =
        (removeCoinRoute ⟨[⟨"x", 2, "x", "?", none⟩], [⟨"x", 2, "x", "?", none⟩], 0⟩
          "x").state.store ∧
      (removeCoinRoute ⟨[⟨"x", 2, "x", "?", none⟩], [⟨"x", 2, "x", "?", none⟩], 0⟩
        "x").state.lastApiCallTime = (0 : ℤ)) := by
  have hc : ([⟨"x", 2, "x", "?", none⟩] : List Holding).countP
      (fun item => item.coin == "x") = 1 := by rfl
  exact ⟨hc,
    (c6_remove_route ⟨[⟨"x", 2, "x", "?", none⟩], [⟨"x", 2, "x", "?", none⟩], 0⟩
      "x").2 hc⟩

/-- Claim C8 (confirmed): `fetchCoinPrice` changes nothing on a failed or empty
response; on a non-empty response it writes one updated list to both the persisted
portfolio and the in-memory cache, in which exactly the entries whose coin equals
the requested id get the new price, timestamp, name and symbol, and every other
entry is exactly the one read at the start of the fetch. -/
theorem c8_fetch_frame (s : SysState) (coinId : String) (now : ℤ)
    (up : ℕ → AxiosOutcome) :
    (∀ e, (retryAxios up 5 1000 0).result = .error e →
      fetchCoinPrice s coinId now up = ⟨s, true, none⟩) ∧
    ((retryAxios up 5 1000 0).result = .ok [] →
      fetchCoinPrice s coinId now up = ⟨s, true, none⟩) ∧
    (∀ c rest, (retryAxios up 5 1000 0).result = .ok (c :: rest) →
      (fetchCoinPrice s coinId now up).state.portfolioCache =
        (fetchCoinPrice s coinId now up).state.store ∧
      (fetchCoinPrice s coinId now up).saved =
        some (fetchCoinPrice s coinId now up).state.store ∧
      (fetchCoinPrice s coinId now up).state.store.length = s.store.length ∧
      (∀ (i : ℕ) (item : Holding), s.store[i]? = some item →
        (item.coin ≠ coinId →
          (fetchCoinPrice s coinId now up).state.store[i]? = some item) ∧
        (item.coin = coinId →
          (fetchCoinPrice s coinId now up).state.store[i]? =
            some { item with lastPrice := some ⟨c.current_price, now⟩,
                             name := c.name, symbol := c.symbol }))) := by
  refine ⟨?_, ?_, ?_⟩
  · intro e h
    unfold fetchCoinPrice
    rw [h]
  · intro h
    unfold fetchCoinPrice
    rw [h]
  · intro c rest h
    have hr : fetchCoinPrice s coinId now up =
        ⟨⟨s.store.map (updateForCoin coinId now c),
            s.store.map (updateForCoin coinId now c), s.lastApiCallTime⟩, true,
          some (s.store.map (updateForCoin coinId now c))⟩ := by
      unfold fetchCoinPrice
      rw [h]
    rw [hr]
    refine ⟨rfl, rfl, by simp, ?_⟩
    intro i item hi
    constructor
    · intro hne
      simp only [List.getElem?_map, hi, Option.map_some']
      simp [updateForCoin, hne]
    · intro heq
      simp only [List.getElem?_map, hi, Option.map_some']
      simp [updateForCoin, heq]

/-- Witness for c8_fetch_frame at a concrete state and response. -/
theorem c8_fetch_frame_witness :
    ((retryAxios (fun _ => AxiosOutcome.ok [⟨"doge", .num 2, "Dogecoin", "doge"⟩])
        5 1000 0).result = .ok (⟨"doge", .num 2, "Dogecoin", "doge"⟩ :: [])) ∧
    (fetchCoinPrice ⟨[], [⟨"doge", 1, "doge", "?", none⟩], 0⟩ "doge" 7
        (fun _ => AxiosOutcome.ok [⟨"doge", .num 2, "Dogecoin", "doge"⟩])).state.portfolioCache =
      (fetchCoinPrice ⟨[], [⟨"doge", 1, "doge", "?", none⟩], 0⟩ "doge" 7
        (fun _ => AxiosOutcome.ok [⟨"doge", .num 2, "Dogecoin", "doge"⟩])).state.store :=
  ⟨rfl, ((c8_fetch_frame ⟨[], [⟨"doge", 1, "doge", "?", none⟩], 0⟩ "doge" 7
      (fun _ => AxiosOutcome.ok [⟨"doge", .num 2, "Dogecoin", "doge"⟩])).2.2
      ⟨"doge", .num 2, "Dogecoin", "doge"⟩ [] rfl).1⟩

lemma applyMarket_coin (now : ℤ) (live : List MarketCoin) (x : Holding) :
    (applyMarket now live x).coin = x.coin := by
  unfold applyMarket
  cases lookupCoin live x.coin with
  | none => rfl
  | some c =>
    dsimp only
    split <;> rfl

lemma updateForCoin_coin (cid : String) (now : ℤ) (c : MarketCoin) (x : Holding) :
    (updateForCoin cid now c x).coin = x.coin := by
  unfold updateForCoin
  split <;> rfl

lemma bgUpdateItem_coin (now : ℤ) (live : List MarketCoin) (x : Holding) :
    (bgUpdateItem now live x).coin = x.coin := by
  unfold bgUpdateItem
  split
  · cases lookupCoin live x.coin with
    | none => rfl
    | some c =>
      dsimp only
      split
      · cases c.current_price.usdField <;> rfl
      · rfl
  · rfl

lemma coinsOf_map (l : List Holding) (f : Holding → Holding)
    (h : ∀ x, (f x).coin = x.coin) : coinsOf (l.map f) = coinsOf l := by
  induction l with
  | nil => rfl
  | cons x t ih =>
    simp only [coinsOf, List.map_cons] at ih ⊢
    rw [h x, ih]

lemma coinsOf_addFirstMatch (l : List Holding) (c : String) (a : ℚ) :
    coinsOf (addFirstMatch l c a) = coinsOf l := by
  induction l with
  | nil => rfl
  | cons x t ih =>
    unfold addFirstMatch
    split
    · rfl
    · simp only [coinsOf, List.map_cons] at ih ⊢
      rw [ih]

/-- Claim C10 (confirmed): when the stored coin ids are pairwise distinct, every
operation preserves that distinctness — add merges into the first matching entry
instead of appending a duplicate, remove deletes every entry with the given id
(leaving none when it reports success), and the batch refresh, the single-coin
fetch and the read-path reconciliation update entries in place without inserting
or duplicating entries. -/
theorem c10_unique_coins (s : SysState) (coinId : String) (amt : Option ℚ)
    (now t : ℤ) (up : ℕ → AxiosOutcome) (resp : Except Unit (List MarketCoin))
    (hnd : (coinsOf s.store).Nodup) :
    (coinsOf (addCoinRoute s coinId amt).state.store).Nodup ∧
    (coinsOf (removeCoinRoute s coinId).state.store).Nodup ∧
    (∀ x ∈ (removeCoinRoute s coinId).state.store,
      (removeCoinRoute s coinId).found = true → x.coin ≠ coinId) ∧
    (coinsOf (fetchAndCachePrices s now up).state.store).Nodup ∧
    (coinsOf (fetchCoinPrice s coinId t up).state.store).Nodup ∧
    (coinsOf (getPortfolioFull s now resp).state.store).Nodup := by
  refine ⟨?_, ?_, ?_, ?_, ?_, ?_⟩
  · cases amt with
    | none => exact hnd
    | some a =>
      unfold addCoinRoute
      dsimp only
      split
      · exact hnd
      · split
        · rw [coinsOf_addFirstMatch]
          exact hnd
        · rename_i hc hany
          have hmem : coinId ∉ coinsOf s.store := by
            intro hmem
            rw [coinsOf, List.mem_map] at hmem
            obtain ⟨x, hx, hxc⟩ := hmem
            exact hany (List.any_eq_true.mpr ⟨x, hx, by simp [hxc]⟩)
          simp only [coinsOf, List.map_append, List.map_cons, List.map_nil]
          rw [List.nodup_append]
          refine ⟨hnd, List.nodup_singleton _, ?_⟩
          intro b hb hbc
          simp only [newHolding, List.mem_singleton] at hbc
          subst hbc
          exact hmem hb
  · unfold removeCoinRoute
    dsimp only
    split
    · exact List.Nodup.sublist ((List.filter_sublist s.store).map Holding.coin) hnd
    · exact hnd
  · unfold removeCoinRoute
    dsimp only
    split
    · intro x hx _
      have := (List.mem_filter.mp hx).2
      simpa using this
    · intro x hx hfound
      exact absurd hfound (by simp)
  · rcases lt_or_le (now - s.lastApiCallTime) API_CALL_INTERVAL with hg | hg
    · rw [fetchAndCachePrices_skip s now up hg]
      exact hnd
    · by_cases hemp : s.store = []
      · have hr : fetchAndCachePrices s now up = ⟨⟨[], [], now⟩, false, some []⟩ := by
          unfold fetchAndCachePrices
          rw [if_neg (not_lt.mpr hg), if_pos hemp]
        rw [hr]
        simp [coinsOf]
      · cases hres : (retryAxios up 5 1000 0).result with
        | error e =>
          have hr : fetchAndCachePrices s now up =
              ⟨⟨s.portfolioCache, s.store, now⟩, true, none⟩ := by
            unfold fetchAndCachePrices
            rw [if_neg (not_lt.mpr hg), if_neg hemp, hres]
          rw [hr]
          exact hnd
        | ok data =>
          have hr : fetchAndCachePrices s now up =
              ⟨⟨s.store.map (applyMarket now data), s.store.map (applyMarket now data),
                  now⟩, true, some (s.store.map (applyMarket now data))⟩ := by
            unfold fetchAndCachePrices
            rw [if_neg (not_lt.mpr hg), if_neg hemp, hres]
          rw [hr]
          rw [show coinsOf (s.store.map (applyMarket now data)) = coinsOf s.store from
            coinsOf_map s.store _ (applyMarket_coin now data)]
          exact hnd
  · cases hres : (retryAxios up 5 1000 0).result with
    | error e =>
      have hr : fetchCoinPrice s coinId t up = ⟨s, true, none⟩ := by
        unfold fetchCoinPrice
        rw [hres]
      rw [hr]
      exact hnd
    | ok data =>
      cases data with
      | nil =>
        have hr : fetchCoinPrice s coinId t up = ⟨s, true, none⟩ := by
          unfold fetchCoinPrice
          rw [hres]
        rw [hr]
        exact hnd
      | cons c rest =>
        have hr : fetchCoinPrice s coinId t up =
            ⟨⟨s.store.map (updateForCoin coinId t c),
                s.store.map (updateForCoin coinId t c), s.lastApiCallTime⟩, true,
              some (s.store.map (updateForCoin coinId t c))⟩ := by
          unfold fetchCoinPrice
          rw [hres]
        rw [hr]
        rw [show coinsOf (s.store.map (updateForCoin coinId t c)) = coinsOf s.store from
          coinsOf_map s.store _ (updateForCoin_coin coinId t c)]
        exact hnd
  · cases hroute : getPortfolioRoute s.portfolioCache with
    | error e =>
      have hr : getPortfolioFull s now resp = ⟨.error e, s, none, []⟩ := by
        unfold getPortfolioFull
        rw [hroute]
      rw [hr]
      exact hnd
    | ok out =>
      have hr : (getPortfolioFull s now resp).state.store =
          s.store.map (bgUpdateItem now (bgLiveData s.store resp)) := by
        unfold getPortfolioFull
        rw [hroute]
      rw [hr]
      rw [show coinsOf (s.store.map (bgUpdateItem now (bgLiveData s.store resp))) =
          coinsOf s.store from
        coinsOf_map s.store _ (bgUpdateItem_coin now (bgLiveData s.store resp))]
      exact hnd

/-- Witness for c10_unique_coins starting from the empty (trivially duplicate-free)
store. -/
theorem c10_unique_coins_witness :
    (coinsOf (⟨[], [], 0⟩ : SysState).store).Nodup ∧
    (coinsOf (addCoinRoute ⟨[], [], 0⟩ "x" (some 2)).state.store).Nodup := by
  have hnd : (coinsOf (⟨[], [], 0⟩ : SysState).store).Nodup := by
    simp [coinsOf]
  exact ⟨hnd, (c10_unique_coins ⟨[], [], 0⟩ "x" (some 2) 0 0
    (fun _ => AxiosOutcome.http429) (.error ()) hnd).1⟩

end CryptoPortfolio
